import Mathlib

/-!
Verification development for the streaming hash-join core:
a shallow embedding of `rust/stream/src/executor/hash_join.rs` and
`rust/stream/src/executor/mview/state.rs`, with theorems checking the
natural-language specification against the embedded code.

Scalar datums are modelled as `Option Int` (nullable 64-bit integers in the
shown tests); rows are lists of datums.  Columnar arrays are lists of datums,
so a `StreamChunk` is a list of ops plus a list of columns.  Hash maps are
modelled as association lists (iteration order is one admissible order of the
Rust `HashMap`).  Fallible storage effects are made explicit: state-store
ingests are returned as effect values rather than performed.
-/

/-- Nullable scalar value, matching `Datum = Option<ScalarImpl>`. -/
abbrev Datum : Type := Option Int

/-- Row of nullable scalars, matching `risingwave_common::array::Row`. -/
abbrev Row : Type := List Datum

/-- Stream operation kind, matching `risingwave_common::array::Op`. -/
inductive Op where
  | Insert
  | Delete
  | UpdateInsert
  | UpdateDelete
deriving DecidableEq, Repr

/-- Lookup in an association list keyed by rows, matching `HashMap::get`. -/
def assocGet {α : Type} : List (Row × α) → Row → Option α
  | [], _ => none
  | p :: rest, k => if p.1 = k then some p.2 else assocGet rest k

/-- Insert-or-replace in an association list, matching `HashMap::insert` /
`Entry::insert` on the keyed maps of the executor. -/
def assocSet {α : Type} : List (Row × α) → Row → α → List (Row × α)
  | [], k, v => [(k, v)]
  | p :: rest, k, v => if p.1 = k then (k, v) :: rest else p :: assocSet rest k v

/-- Removal from an association list, matching `HashMap::remove`. -/
def assocErase {α : Type} : List (Row × α) → Row → List (Row × α)
  | [], _ => []
  | p :: rest, k => if p.1 = k then rest else p :: assocErase rest k

/-- Projection of a row onto a list of column indices, as done by
`hash_key_from_row_ref` (join key) and the pk projection in
`eq_join_oneside`. -/
def projectRow (row : Row) (indices : List Nat) : Row :=
  indices.map (fun i => row.getD i none)

/-- Modelled from the spec: the per-key join state `AllOrNoneState`
(`managed_state::join`, not under `src/`).  Spec section 4.2: a multiset of
rows keyed by pk (`cache`), plus a buffer of pending mutations flushed at
barrier time (`pendingPut` for recorded insertions, `pendingDel` for
tombstones).  The fully-cached (`AllCached`) configuration is modelled: the
in-memory map is the authoritative set. -/
structure JoinEntry where
  cache : List (Row × Row)
  pendingPut : List (Row × Row)
  pendingDel : List Row
deriving DecidableEq, Repr

/-- Empty join-state entry, as produced by `create_hash_join_state`. -/
def JoinEntry.empty : JoinEntry := ⟨[], [], []⟩

/-- Modelled from the spec: `insert(row)` records an insertion keyed by the
row's pk, overwriting any row with the same pk (spec section 4.2). -/
def JoinEntry.insert (e : JoinEntry) (pk_indices : List Nat) (row : Row) : JoinEntry :=
  let pk := projectRow row pk_indices
  { cache := assocSet e.cache pk row
    pendingPut := assocSet e.pendingPut pk row
    pendingDel := e.pendingDel.filter (fun p => p ≠ pk) }

/-- Modelled from the spec: `remove(pk)` records a tombstone for `pk`; a
pending insert for `pk` is cancelled instead of writing a tombstone
(spec section 4.2). -/
def JoinEntry.remove (e : JoinEntry) (pk : Row) : JoinEntry :=
  if (assocGet e.pendingPut pk).isSome then
    { cache := assocErase e.cache pk
      pendingPut := assocErase e.pendingPut pk
      pendingDel := e.pendingDel }
  else
    { cache := assocErase e.cache pk
      pendingPut := e.pendingPut
      pendingDel := e.pendingDel ++ [pk] }

/-- Modelled from the spec: `values()` yields all currently matching rows of
the entry (spec section 4.2); in the all-cached configuration this is the
in-memory map's values. -/
def JoinEntry.values (e : JoinEntry) : List Row :=
  e.cache.map Prod.snd

/-- Modelled from the spec: `is_empty()` is true iff the materialized set
contains zero rows (spec section 4.2). -/
def JoinEntry.is_empty (e : JoinEntry) : Bool :=
  e.cache.isEmpty

/-- Logical key-value operation appended to a side's write batch when a join
state entry is flushed.  Modelled from the spec (section 4.2 `flush`): the
cell-based byte encoding of keys is abstracted to the logical
(pk, row) put / pk delete it encodes. -/
inductive JoinKVOp where
  | put (pk : Row) (row : Row)
  | del (pk : Row)
deriving DecidableEq, Repr

/-- Modelled from the spec: `flush(write_batch)` appends all pending
insertions as puts and all tombstones as deletes, and clears the pending
buffer (spec section 4.2).  Returns the appended operations together with
the flushed entry. -/
def JoinEntry.flush (e : JoinEntry) : List JoinKVOp × JoinEntry :=
  (e.pendingPut.map (fun p => JoinKVOp.put p.1 p.2) ++ e.pendingDel.map JoinKVOp.del,
   { e with pendingPut := [], pendingDel := [] })

/-- Built output chunk, matching `StreamChunk { ops, columns, visibility }`.
Each column is the list of datums of the corresponding array. -/
structure StreamChunk where
  ops : List Op
  columns : List (List Datum)
  visibility : Option (List Bool)
deriving DecidableEq, Repr

/-- Append one datum to the column builder at position `idx`, matching
`self.column_builders[idx].append_datum(..)`. -/
def pushCell : List (List Datum) → Nat → Datum → List (List Datum)
  | [], _, _ => []
  | c :: cs, 0, d => (c ++ [d]) :: cs
  | c :: cs, n + 1, d => c :: pushCell cs n d

/-- Append the datums of `row` to consecutive column builders starting at
position `start`, matching the loops
`for i in 0..row.size() { builders[i + start].append(row[i]) }`. -/
def appendCells : List (List Datum) → Nat → List Datum → List (List Datum)
  | cols, _, [] => cols
  | cols, start, d :: ds => appendCells (pushCell cols start d) (start + 1) ds

/-- Output chunk builder, matching `StreamChunkBuilder` in `hash_join.rs`. -/
structure StreamChunkBuilder where
  ops : List Op
  column_builders : List (List Datum)
  update_start_pos : Nat
  matched_start_pos : Nat
deriving DecidableEq, Repr

/-- Fresh builder with `n` empty column builders, matching
`StreamChunkBuilder::new` (the capacity argument only pre-sizes vectors). -/
def StreamChunkBuilder.new (n : Nat) (update_start_pos matched_start_pos : Nat) :
    StreamChunkBuilder :=
  ⟨[], List.replicate n [], update_start_pos, matched_start_pos⟩

/-- Matching `StreamChunkBuilder::append_row`: push `op`, write the update
row at `update_start_pos` and the matched row at `matched_start_pos`. -/
def StreamChunkBuilder.append_row (b : StreamChunkBuilder) (op : Op)
    (row_update row_matched : Row) : StreamChunkBuilder :=
  { b with
    ops := b.ops ++ [op]
    column_builders :=
      appendCells (appendCells b.column_builders b.update_start_pos row_update)
        b.matched_start_pos row_matched }

/-- Matching `StreamChunkBuilder::append_row_update`: push `op`, write the
update row at `update_start_pos` and nulls at `matched_start_pos`. -/
def StreamChunkBuilder.append_row_update (b : StreamChunkBuilder) (op : Op)
    (row_update : Row) : StreamChunkBuilder :=
  { b with
    ops := b.ops ++ [op]
    column_builders :=
      appendCells (appendCells b.column_builders b.update_start_pos row_update)
        b.matched_start_pos
        (List.replicate (b.column_builders.length - row_update.length) (none : Datum)) }

/-- Matching `StreamChunkBuilder::append_row_matched`: push `op`, write nulls
at `update_start_pos` and the matched row at `matched_start_pos`. -/
def StreamChunkBuilder.append_row_matched (b : StreamChunkBuilder) (op : Op)
    (row_matched : Row) : StreamChunkBuilder :=
  { b with
    ops := b.ops ++ [op]
    column_builders :=
      appendCells
        (appendCells b.column_builders b.update_start_pos
          (List.replicate (b.column_builders.length - row_matched.length) (none : Datum)))
        b.matched_start_pos row_matched }

/-- Matching `StreamChunkBuilder::finish`: the finished chunk carries the
accumulated ops and columns and `visibility: None`. -/
def StreamChunkBuilder.finish (b : StreamChunkBuilder) : StreamChunk :=
  ⟨b.ops, b.column_builders, none⟩

/-- Join type constants, matching `mod JoinType` in `hash_join.rs`. -/
def JoinType.Inner : Nat := 0

/-- Join type constant `LeftOuter`. -/
def JoinType.LeftOuter : Nat := 1

/-- Join type constant `RightOuter`. -/
def JoinType.RightOuter : Nat := 2

/-- Join type constant `FullOuter`. -/
def JoinType.FullOuter : Nat := 3

/-- Side constant `Left`, matching `mod SideType`. -/
def SideType.Left : Nat := 0

/-- Side constant `Right`. -/
def SideType.Right : Nat := 1

/-- Matching `const fn outer_side_keep` in `hash_join.rs`. -/
def outer_side_keep (join_type side_type : Nat) : Bool :=
  join_type == JoinType.FullOuter
    || (join_type == JoinType.LeftOuter && side_type == SideType.Left)
    || (join_type == JoinType.RightOuter && side_type == SideType.Right)

/-- Matching `const fn outer_side_null` in `hash_join.rs`. -/
def outer_side_null (join_type side_type : Nat) : Bool :=
  join_type == JoinType.FullOuter
    || (join_type == JoinType.LeftOuter && side_type == SideType.Right)
    || (join_type == JoinType.RightOuter && side_type == SideType.Left)

/-- Opposite side.  Stated from the spec's words for claim C6 ("symmetric of
keep"): `opposite(Left) = Right` and `opposite(Right) = Left`. -/
def oppositeSide (side_type : Nat) : Nat :=
  if side_type = SideType.Left then SideType.Right else SideType.Left

/-- One side of the join, matching `JoinSide` in `hash_join.rs` (the keyspace
handle is represented by the flushed effects instead). -/
structure JoinSide where
  ht : List (Row × JoinEntry)
  key_indices : List Nat
  pk_indices : List Nat
  col_types_len : Nat
  start_pos : Nat
deriving DecidableEq, Repr

/-- Per-row body of the loop in `HashJoinExecutor::eq_join_oneside`.  The
update side's hash table and the chunk builder are threaded; the match
side's table is only read.  Returns the updated table and builder.  The
`Bool` inside mirrors the `null_row_updated` flag. -/
def joinRowStep (T SIDE : Nat) (key_indices pk_indices : List Nat)
    (matchHt : List (Row × JoinEntry))
    (st : List (Row × JoinEntry) × StreamChunkBuilder) (opRow : Op × Row) :
    List (Row × JoinEntry) × StreamChunkBuilder :=
  let updateHt := st.1
  let b := st.2
  let op := opRow.1
  let row := opRow.2
  let key := projectRow row key_indices
  let value := row
  match assocGet matchHt key with
  | some matched_rows =>
    let res : List (Row × JoinEntry) × StreamChunkBuilder × Bool :=
      match op with
      | Op.Insert | Op.UpdateInsert =>
        match assocGet updateHt key with
        | some entry =>
          (assocSet updateHt key (entry.insert pk_indices value), b, false)
        | none =>
          let bn :=
            if outer_side_null T SIDE then
              matched_rows.values.foldl
                (fun acc m =>
                  (acc.append_row_matched Op.UpdateDelete m).append_row Op.UpdateInsert row m)
                b
            else b
          (assocSet updateHt key (JoinEntry.empty.insert pk_indices value), bn,
            outer_side_null T SIDE)
      | Op.Delete | Op.UpdateDelete =>
        match assocGet updateHt key with
        | some v =>
          let pk := projectRow row pk_indices
          let v2 := v.remove pk
          let retract := outer_side_null T SIDE && v2.is_empty
          let bn :=
            if retract then
              matched_rows.values.foldl
                (fun acc m =>
                  (acc.append_row Op.UpdateDelete row m).append_row_matched Op.UpdateInsert m)
                b
            else b
          (assocSet updateHt key v2, bn, retract)
        | none => (updateHt, b, false)
    let b2 :=
      if !outer_side_null T SIDE || !res.2.2 then
        matched_rows.values.foldl (fun acc m => acc.append_row op row m) res.2.1
      else res.2.1
    (res.1, b2)
  | none =>
    let updateHt2 :=
      match op with
      | Op.Insert | Op.UpdateInsert =>
        match assocGet updateHt key with
        | some entry => assocSet updateHt key (entry.insert pk_indices value)
        | none => assocSet updateHt key (JoinEntry.empty.insert pk_indices value)
      | Op.Delete | Op.UpdateDelete =>
        match assocGet updateHt key with
        | some v => assocSet updateHt key (v.remove (projectRow row pk_indices))
        | none => updateHt
    let b2 := if outer_side_keep T SIDE then b.append_row_update op row else b
    (updateHt2, b2)

/-- Matching `HashJoinExecutor::eq_join_oneside`: process one compacted input
chunk (given as its visible (op, row) pairs) on update side `SIDE`, and
finish the built chunk.  Returns the updated side and the output chunk. -/
def eq_join_oneside (T SIDE : Nat) (side_update side_match : JoinSide)
    (new_column_n : Nat) (chunk : List (Op × Row)) : JoinSide × StreamChunk :=
  let b0 := StreamChunkBuilder.new new_column_n side_update.start_pos side_match.start_pos
  let res := chunk.foldl
    (joinRowStep T SIDE side_update.key_indices side_update.pk_indices side_match.ht)
    (side_update.ht, b0)
  ({ side_update with ht := res.1 }, res.2.finish)

/-- Event from the barrier aligner, matching `AlignedMessage` (chunks are
given as their visible (op, row) pairs; upstream errors are out of scope of
the modelled claims). -/
inductive AlignedMessage where
  | left (chunk : List (Op × Row))
  | right (chunk : List (Op × Row))
  | barrier (epoch : Nat)
deriving DecidableEq, Repr

/-- Output message of the executor, matching `Message::Chunk | Barrier`. -/
inductive Message where
  | chunk (c : StreamChunk)
  | barrier (epoch : Nat)
deriving DecidableEq, Repr

/-- Executor state: the two join sides and the output width, matching the
fields of `HashJoinExecutor` that the modelled claims touch. -/
structure HashJoinExec where
  side_l : JoinSide
  side_r : JoinSide
  new_column_n : Nat
deriving DecidableEq, Repr

/-- Flush of one side, matching the inner loop of
`HashJoinExecutor::flush_data`: every state entry in the side's hash table
is flushed into the side's single write batch (the batch is the
concatenation of the entries' flush operations, in table order). -/
def flushSide (ht : List (Row × JoinEntry)) : List JoinKVOp × List (Row × JoinEntry) :=
  (ht.flatMap (fun p => (p.2.flush).1), ht.map (fun p => (p.1, (p.2.flush).2)))

/-- Matching `HashJoinExecutor::flush_data`: one write batch per side (left
then right), each ingested; returns the ingested batches in order. -/
def flush_data (e : HashJoinExec) : HashJoinExec × List (List JoinKVOp) :=
  let l := flushSide e.side_l.ht
  let r := flushSide e.side_r.ht
  ({ e with side_l := { e.side_l with ht := l.2 }, side_r := { e.side_r with ht := r.2 } },
    [l.1, r.1])

/-- Matching `HashJoinExecutor::next` (Executor impl): a left or right chunk
is joined via `eq_join_oneside` and produces no ingest; a barrier first runs
`flush_data` (whose batch ingests are returned as effects) and then returns
the barrier message. -/
def hashJoinNext (T : Nat) (e : HashJoinExec) (msg : AlignedMessage) :
    HashJoinExec × List (List JoinKVOp) × Message :=
  match msg with
  | AlignedMessage.left c =>
    let r := eq_join_oneside T SideType.Left e.side_l e.side_r e.new_column_n c
    ({ e with side_l := r.1 }, [], Message.chunk r.2)
  | AlignedMessage.right c =>
    let r := eq_join_oneside T SideType.Right e.side_r e.side_l e.new_column_n c
    ({ e with side_r := r.1 }, [], Message.chunk r.2)
  | AlignedMessage.barrier ep =>
    let r := flush_data e
    (r.1, r.2, Message.barrier ep)

/-- Parts of `HashJoinExecutor::new` relevant to the output layout: schema
fields, builder datatypes and the two sides' start positions.  Fields and
datatypes are represented by identifying tags. -/
structure HashJoinNewParts where
  schema_fields : List Nat
  new_column_datatypes : List Nat
  side_l_start_pos : Nat
  side_r_start_pos : Nat
deriving DecidableEq, Repr

/-- Matching `HashJoinExecutor::new`: `schema_fields` is built by chaining
the right input's fields with the left input's fields (in that order, as in
the source), `new_column_datatypes` is read off those fields, and the side
start positions are 0 (left) and the left width (right). -/
def hashJoinNew (schema_l schema_r : List Nat) : HashJoinNewParts :=
  let side_l_column_n := schema_l.length
  let schema_fields := schema_r ++ schema_l
  { schema_fields := schema_fields
    new_column_datatypes := schema_fields
    side_l_start_pos := 0
    side_r_start_pos := side_l_column_n }

/-- Matching `serialize_cell_idx(u32) -> 4-byte big-endian` (spec section
4.4; the function lives outside `src/`). -/
def serialize_cell_idx (i : Nat) : List Nat :=
  [i / 2 ^ 24 % 256, i / 2 ^ 16 % 256, i / 2 ^ 8 % 256, i % 256]

/-- Key-value operation of the materialized-view writer's batch. -/
inductive KVOp where
  | put (key : List Nat) (value : List Nat)
  | del (key : List Nat)
deriving DecidableEq, Repr

/-- State of the mview writer, matching `ManagedMViewState`: schema width,
pk columns and the memtable `pk -> Option<row>` (as an association list in
drain order). -/
structure ManagedMViewState where
  schema_len : Nat
  pk_columns : List Nat
  memtable : List (Row × Option Row)

/-- Batch content of `ManagedMViewState::flush`: for each memtable entry and
each column index the key is `serialize_pk(pk) ++ serialize_cell_idx(i)`,
with a put of the serialized cell for an upsert and a delete for a
tombstone.  The pk and cell serializers (outside `src/`) are passed in. -/
def mviewFlushOps (spk : Row → List Nat) (scell : Datum → List Nat)
    (st : ManagedMViewState) : List KVOp :=
  st.memtable.flatMap (fun pc =>
    (List.range st.schema_len).map (fun cell_idx =>
      let key := spk pc.1 ++ serialize_cell_idx cell_idx
      match pc.2 with
      | some cells => KVOp.put key (scell (cells.getD cell_idx none))
      | none => KVOp.del key))

/-- Matching `ManagedMViewState::flush(epoch)`: the memtable is drained
(cleared) while the batch is built, then the batch is ingested under
`epoch`.  The ingest outcome is an explicit parameter; the function returns
the flush result, the post state and the ingest effect `(batch, epoch)`. -/
def mviewFlush (spk : Row → List Nat) (scell : Datum → List Nat)
    (st : ManagedMViewState) (epoch : Nat) (ingest_ok : Bool) :
    Except Unit Unit × ManagedMViewState × (List KVOp × Nat) :=
  let ops := mviewFlushOps spk scell st
  let st2 := { st with memtable := [] }
  ((if ingest_ok then Except.ok () else Except.error ()), st2, (ops, epoch))

/-- Row at position `j` of a set of column builders (reading one datum from
each column), used to state what rows a built chunk contains. -/
def rowAt (cols : List (List Datum)) (j : Nat) : Row :=
  cols.map (fun c => c.getD j none)

/-- The (op, row) pairs a builder has accumulated, reading the columnar
builder back row-wise. -/
def emittedRows (b : StreamChunkBuilder) : List (Op × Row) :=
  (List.range b.ops.length).map (fun j => (b.ops.getD j Op.Insert, rowAt b.column_builders j))

/-- Output row assembled from an update-side row and a matched-side row: the
left side's columns come first regardless of which side drove the update,
so with `update_start_pos = 0` (left drives) the update row comes first,
otherwise the matched row does. -/
def joinOutputRow (update_start_pos : Nat) (u m : Row) : Row :=
  if update_start_pos = 0 then u ++ m else m ++ u

/-- Well-formedness of a builder for a join with update-side width `uw` and
matched-side width `mw`: the columns partition into the two sides' ranges
(in one of the two layouts used by `eq_join_oneside`) and every column has
one datum per accumulated op. -/
def BuilderInv (b : StreamChunkBuilder) (uw mw : Nat) : Prop :=
  b.column_builders.length = uw + mw ∧
    (∀ c ∈ b.column_builders, c.length = b.ops.length) ∧
    ((b.update_start_pos = 0 ∧ b.matched_start_pos = uw) ∨
      (b.update_start_pos = mw ∧ b.matched_start_pos = 0))

/-- Datum that lands in column `j` when an update-side row and a
matched-side row are appended at their start positions. -/
def fullCell (upos : Nat) (u : Row) (mpos : Nat) (m : Row) (j : Nat) : Datum :=
  if upos ≤ j ∧ j < upos + u.length then u.getD (j - upos) none else m.getD (j - mpos) none

/-- Common shape of the three builder append methods: push `op` and append
an update-side row and a matched-side row at the builder's start
positions. -/
def appendFull (b : StreamChunkBuilder) (op : Op) (u m : Row) : StreamChunkBuilder :=
  { b with
    ops := b.ops ++ [op]
    column_builders :=
      appendCells (appendCells b.column_builders b.update_start_pos u)
        b.matched_start_pos m }

theorem pushCell_length (cols : List (List Datum)) (i : Nat) (d : Datum) :
    (pushCell cols i d).length = cols.length := by
  induction cols generalizing i with
  | nil => rfl
  | cons c cs ih =>
    cases i with
    | zero => rfl
    | succ n => simp [pushCell, ih]

theorem pushCell_getElem? (cols : List (List Datum)) (i : Nat) (d : Datum) (j : Nat) :
    (pushCell cols i d)[j]? = if j = i then cols[j]?.map (fun c => c ++ [d]) else cols[j]? := by
  induction cols generalizing i j with
  | nil => simp [pushCell]
  | cons c cs ih =>
    cases i with
    | zero =>
      cases j with
      | zero => simp [pushCell]
      | succ j' => simp [pushCell]
    | succ i' =>
      cases j with
      | zero => simp [pushCell]
      | succ j' => simpa [pushCell] using ih i' j'

theorem appendCells_length (row : List Datum) (cols : List (List Datum)) (start : Nat) :
    (appendCells cols start row).length = cols.length := by
  induction row generalizing cols start with
  | nil => rfl
  | cons d ds ih => simp [appendCells, ih, pushCell_length]

theorem appendCells_getElem? (row : List Datum) (cols : List (List Datum)) (start j : Nat) :
    (appendCells cols start row)[j]? =
      if start ≤ j ∧ j < start + row.length then
        cols[j]?.map (fun c => c ++ [row.getD (j - start) none])
      else cols[j]? := by
  induction row generalizing cols start with
  | nil =>
    rw [if_neg (by simp only [List.length_nil]; omega)]
    rfl
  | cons d ds ih =>
    show (appendCells (pushCell cols start d) (start + 1) ds)[j]? = _
    rw [ih, pushCell_getElem?]
    by_cases hj : j = start
    · subst hj
      rw [if_neg (by omega), if_pos rfl, if_pos (by simp only [List.length_cons]; omega)]
      simp
    · rw [if_neg hj]
      by_cases hr : start + 1 ≤ j ∧ j < start + 1 + ds.length
      · rw [if_pos hr, if_pos (by simp only [List.length_cons]; omega)]
        have hd : j - start = (j - (start + 1)) + 1 := by omega
        rw [hd]
        simp
      · rw [if_neg hr, if_neg (by simp only [List.length_cons]; omega)]

theorem getElem?_eq_some_getD {α : Type} (l : List α) (k : Nat) (d : α) (h : k < l.length) :
    l[k]? = some (l.getD k d) := by
  simp [List.getD, List.getElem?_eq_getElem h]

theorem getD_append_left {α : Type} (l l' : List α) (k : Nat) (d : α) (h : k < l.length) :
    (l ++ l').getD k d = l.getD k d := by
  simp [List.getD, List.getElem?_append_left h]

theorem getD_append_last {α : Type} (l : List α) (x d : α) :
    (l ++ [x]).getD l.length d = x := by
  simp

theorem appendTwo_getElem? (cols : List (List Datum)) (upos mpos : Nat) (u m : Row) (j : Nat)
    (hdisj : upos + u.length ≤ mpos ∨ mpos + m.length ≤ upos) :
    (appendCells (appendCells cols upos u) mpos m)[j]? =
      if upos ≤ j ∧ j < upos + u.length then
        cols[j]?.map (fun c => c ++ [u.getD (j - upos) none])
      else if mpos ≤ j ∧ j < mpos + m.length then
        cols[j]?.map (fun c => c ++ [m.getD (j - mpos) none])
      else cols[j]? := by
  rw [appendCells_getElem?, appendCells_getElem?]
  by_cases hur : upos ≤ j ∧ j < upos + u.length
  · by_cases hmr : mpos ≤ j ∧ j < mpos + m.length
    · exfalso; omega
    · simp [hur, hmr]
  · by_cases hmr : mpos ≤ j ∧ j < mpos + m.length
    · simp [hur, hmr]
    · simp [hur, hmr]

theorem appendTwoFull_getElem? (cols : List (List Datum)) (upos mpos uw mw : Nat) (u m : Row)
    (hu : u.length = uw) (hm : m.length = mw)
    (hlay : upos = 0 ∧ mpos = uw ∨ upos = mw ∧ mpos = 0)
    (j : Nat) (hj : j < uw + mw) :
    (appendCells (appendCells cols upos u) mpos m)[j]? =
      cols[j]?.map (fun c => c ++ [fullCell upos u mpos m j]) := by
  have hdisj : upos + u.length ≤ mpos ∨ mpos + m.length ≤ upos := by
    rcases hlay with ⟨h1, h2⟩ | ⟨h1, h2⟩ <;> omega
  rw [appendTwo_getElem? cols upos mpos u m j hdisj]
  unfold fullCell
  by_cases hur : upos ≤ j ∧ j < upos + u.length
  · rw [if_pos hur, if_pos hur]
  · rw [if_neg hur, if_neg hur, if_pos (by rcases hlay with ⟨h1, h2⟩ | ⟨h1, h2⟩ <;> omega)]

theorem appendTwo_length (cols : List (List Datum)) (upos mpos : Nat) (u m : Row) :
    (appendCells (appendCells cols upos u) mpos m).length = cols.length := by
  simp [appendCells_length]

theorem rowAt_appendTwoFull_lt (cols : List (List Datum)) (upos mpos uw mw L : Nat) (u m : Row)
    (hu : u.length = uw) (hm : m.length = mw)
    (hlay : upos = 0 ∧ mpos = uw ∨ upos = mw ∧ mpos = 0)
    (hlen : cols.length = uw + mw) (hcols : ∀ c ∈ cols, c.length = L)
    (j : Nat) (hj : j < L) :
    rowAt (appendCells (appendCells cols upos u) mpos m) j = rowAt cols j := by
  unfold rowAt
  apply List.ext_getElem?
  intro k
  rw [List.getElem?_map, List.getElem?_map]
  by_cases hk : k < uw + mw
  · rw [appendTwoFull_getElem? cols upos mpos uw mw u m hu hm hlay k hk]
    rw [getElem?_eq_some_getD cols k [] (by omega)]
    simp only [Option.map_some']
    congr 1
    have hmem : cols.getD k [] ∈ cols := by
      have hg : cols[k]? = some (cols.getD k []) := getElem?_eq_some_getD cols k [] (by omega)
      exact List.mem_iff_getElem?.2 ⟨k, hg⟩
    exact getD_append_left _ _ j none (by rw [hcols _ hmem]; exact hj)
  · rw [List.getElem?_eq_none (l := appendCells (appendCells cols upos u) mpos m)
        (by rw [appendTwo_length]; omega),
      List.getElem?_eq_none (l := cols) (by omega)]

theorem rowAt_appendTwoFull_last (cols : List (List Datum)) (upos mpos uw mw L : Nat) (u m : Row)
    (hu : u.length = uw) (hm : m.length = mw)
    (hlay : upos = 0 ∧ mpos = uw ∨ upos = mw ∧ mpos = 0)
    (hlen : cols.length = uw + mw) (hcols : ∀ c ∈ cols, c.length = L) :
    rowAt (appendCells (appendCells cols upos u) mpos m) L =
      (List.range (uw + mw)).map (fullCell upos u mpos m) := by
  unfold rowAt
  apply List.ext_getElem?
  intro k
  rw [List.getElem?_map, List.getElem?_map]
  by_cases hk : k < uw + mw
  · rw [appendTwoFull_getElem? cols upos mpos uw mw u m hu hm hlay k hk]
    rw [getElem?_eq_some_getD cols k [] (by omega), List.getElem?_range hk]
    simp only [Option.map_some']
    congr 1
    have hmem : cols.getD k [] ∈ cols := by
      have hg : cols[k]? = some (cols.getD k []) := getElem?_eq_some_getD cols k [] (by omega)
      exact List.mem_iff_getElem?.2 ⟨k, hg⟩
    have hL : (cols.getD k []).length = L := hcols _ hmem
    rw [← hL]
    exact getD_append_last _ _ none
  · rw [List.getElem?_eq_none (l := appendCells (appendCells cols upos u) mpos m)
        (by rw [appendTwo_length]; omega),
      List.getElem?_eq_none (l := List.range (uw + mw)) (by simp only [List.length_range]; omega)]
    rfl

theorem joinOutputRow_eq_cells (upos mpos uw mw : Nat) (u m : Row)
    (hu : u.length = uw) (hm : m.length = mw)
    (hlay : upos = 0 ∧ mpos = uw ∨ upos = mw ∧ mpos = 0) :
    joinOutputRow upos u m = (List.range (uw + mw)).map (fullCell upos u mpos m) := by
  apply List.ext_getElem?
  intro k
  rw [List.getElem?_map]
  rcases hlay with ⟨h1, h2⟩ | ⟨h1, h2⟩
  · unfold joinOutputRow
    rw [if_pos h1]
    by_cases hk : k < uw + mw
    · rw [List.getElem?_range hk]
      simp only [Option.map_some']
      unfold fullCell
      by_cases hku : k < uw
      · rw [if_pos (by omega), List.getElem?_append_left (by omega)]
        rw [getElem?_eq_some_getD u k none (by omega)]
        have he : k - upos = k := by omega
        rw [he]
      · rw [if_neg (by omega), List.getElem?_append_right (by omega)]
        rw [getElem?_eq_some_getD m (k - u.length) none (by omega)]
        have he : k - mpos = k - u.length := by omega
        rw [he]
    · rw [List.getElem?_eq_none (l := u ++ m) (by simp only [List.length_append]; omega),
        List.getElem?_eq_none (l := List.range (uw + mw)) (by simp only [List.length_range]; omega)]
      rfl
  · unfold joinOutputRow
    by_cases hup : upos = 0
    · have hm0 : m = [] := by
        have hl : m.length = 0 := by omega
        exact List.eq_nil_of_length_eq_zero hl
      subst hm0
      rw [if_pos hup]
      by_cases hk : k < uw + mw
      · rw [List.getElem?_range hk]
        simp only [Option.map_some']
        unfold fullCell
        rw [if_pos (by simp only [List.length_nil] at hm; omega)]
        rw [List.getElem?_append_left (by simp only [List.length_nil] at hm; omega)]
        rw [getElem?_eq_some_getD u k none (by simp only [List.length_nil] at hm; omega)]
        have he : k - upos = k := by omega
        rw [he]
      · rw [List.getElem?_eq_none (l := u ++ []) (by simp only [List.append_nil]; omega),
          List.getElem?_eq_none (l := List.range (uw + mw)) (by simp only [List.length_range]; omega)]
        rfl
    · rw [if_neg hup]
      by_cases hk : k < uw + mw
      · rw [List.getElem?_range hk]
        simp only [Option.map_some']
        unfold fullCell
        by_cases hkm : k < mw
        · rw [if_neg (by omega), List.getElem?_append_left (by omega)]
          rw [getElem?_eq_some_getD m k none (by omega)]
          have he : k - mpos = k := by omega
          rw [he]
        · rw [if_pos (by omega), List.getElem?_append_right (by omega)]
          rw [getElem?_eq_some_getD u (k - m.length) none (by omega)]
          have he : k - upos = k - m.length := by omega
          rw [he]
      · rw [List.getElem?_eq_none (l := m ++ u) (by simp only [List.length_append]; omega),
          List.getElem?_eq_none (l := List.range (uw + mw)) (by simp only [List.length_range]; omega)]
        rfl

theorem append_row_eq_appendFull (b : StreamChunkBuilder) (op : Op) (u m : Row) :
    b.append_row op u m = appendFull b op u m := rfl

theorem append_row_update_eq_appendFull (b : StreamChunkBuilder) (op : Op) (u : Row) :
    b.append_row_update op u =
      appendFull b op u (List.replicate (b.column_builders.length - u.length) (none : Datum)) :=
  rfl

theorem append_row_matched_eq_appendFull (b : StreamChunkBuilder) (op : Op) (m : Row) :
    b.append_row_matched op m =
      appendFull b op (List.replicate (b.column_builders.length - m.length) (none : Datum)) m :=
  rfl

theorem appendFull_update_start_pos (b : StreamChunkBuilder) (op : Op) (u m : Row) :
    (appendFull b op u m).update_start_pos = b.update_start_pos := rfl

theorem appendFull_inv (b : StreamChunkBuilder) (op : Op) (u m : Row) (uw mw : Nat)
    (hinv : BuilderInv b uw mw) (hu : u.length = uw) (hm : m.length = mw) :
    BuilderInv (appendFull b op u m) uw mw := by
  obtain ⟨hlen, hcols, hlay⟩ := hinv
  refine ⟨?_, ?_, ?_⟩
  · show (appendCells (appendCells b.column_builders b.update_start_pos u)
      b.matched_start_pos m).length = uw + mw
    rw [appendTwo_length]
    exact hlen
  · intro c hc
    obtain ⟨k, hk⟩ := List.mem_iff_getElem?.1 hc
    have hklt : k < (appendCells (appendCells b.column_builders b.update_start_pos u)
        b.matched_start_pos m).length := (List.getElem?_eq_some.1 hk).1
    rw [appendTwo_length] at hklt
    rw [show (appendFull b op u m).column_builders =
        appendCells (appendCells b.column_builders b.update_start_pos u)
          b.matched_start_pos m from rfl] at hk
    rw [appendTwoFull_getElem? b.column_builders b.update_start_pos b.matched_start_pos
        uw mw u m hu hm hlay k (by omega)] at hk
    cases hck : b.column_builders[k]? with
    | none => rw [hck] at hk; exact absurd hk (by simp)
    | some c0 =>
      rw [hck] at hk
      simp only [Option.map_some'] at hk
      have hceq : c = c0 ++ [fullCell b.update_start_pos u b.matched_start_pos m k] :=
        (Option.some.inj hk).symm
      have hc0 : c0 ∈ b.column_builders := List.mem_iff_getElem?.2 ⟨k, hck⟩
      rw [hceq]
      show (c0 ++ [_]).length = (b.ops ++ [op]).length
      simp [hcols c0 hc0]
  · exact hlay

theorem appendFull_emitted (b : StreamChunkBuilder) (op : Op) (u m : Row) (uw mw : Nat)
    (hinv : BuilderInv b uw mw) (hu : u.length = uw) (hm : m.length = mw) :
    emittedRows (appendFull b op u m) =
      emittedRows b ++ [(op, joinOutputRow b.update_start_pos u m)] := by
  obtain ⟨hlen, hcols, hlay⟩ := hinv
  have hcols' : ∀ c ∈ b.column_builders, c.length = b.ops.length := hcols
  unfold emittedRows
  rw [show (appendFull b op u m).ops = b.ops ++ [op] from rfl,
    show (appendFull b op u m).column_builders =
      appendCells (appendCells b.column_builders b.update_start_pos u)
        b.matched_start_pos m from rfl]
  rw [List.length_append, List.length_singleton, List.range_succ, List.map_append]
  congr 1
  · apply List.map_congr_left
    intro j hj
    rw [List.mem_range] at hj
    have h1 : (b.ops ++ [op]).getD j Op.Insert = b.ops.getD j Op.Insert :=
      getD_append_left _ _ j Op.Insert hj
    have h2 : rowAt (appendCells (appendCells b.column_builders b.update_start_pos u)
        b.matched_start_pos m) j = rowAt b.column_builders j :=
      rowAt_appendTwoFull_lt b.column_builders b.update_start_pos b.matched_start_pos
        uw mw b.ops.length u m hu hm hlay hlen hcols' j hj
    rw [h1, h2]
  · simp only [List.map_cons, List.map_nil]
    have h1 : (b.ops ++ [op]).getD b.ops.length Op.Insert = op := getD_append_last _ _ _
    have h2 : rowAt (appendCells (appendCells b.column_builders b.update_start_pos u)
        b.matched_start_pos m) b.ops.length =
        (List.range (uw + mw)).map (fullCell b.update_start_pos u b.matched_start_pos m) :=
      rowAt_appendTwoFull_last b.column_builders b.update_start_pos b.matched_start_pos
        uw mw b.ops.length u m hu hm hlay hlen hcols'
    rw [h1, h2, ← joinOutputRow_eq_cells b.update_start_pos b.matched_start_pos uw mw u m hu hm hlay]

theorem append_row_inv_emitted (b : StreamChunkBuilder) (op : Op) (u m : Row) (uw mw : Nat)
    (hinv : BuilderInv b uw mw) (hu : u.length = uw) (hm : m.length = mw) :
    BuilderInv (b.append_row op u m) uw mw ∧
      emittedRows (b.append_row op u m) =
        emittedRows b ++ [(op, joinOutputRow b.update_start_pos u m)] := by
  rw [append_row_eq_appendFull]
  exact ⟨appendFull_inv b op u m uw mw hinv hu hm, appendFull_emitted b op u m uw mw hinv hu hm⟩

theorem append_row_update_inv_emitted (b : StreamChunkBuilder) (op : Op) (u : Row) (uw mw : Nat)
    (hinv : BuilderInv b uw mw) (hu : u.length = uw) :
    BuilderInv (b.append_row_update op u) uw mw ∧
      emittedRows (b.append_row_update op u) =
        emittedRows b ++
          [(op, joinOutputRow b.update_start_pos u (List.replicate mw (none : Datum)))] := by
  rw [append_row_update_eq_appendFull]
  have hrep : b.column_builders.length - u.length = mw := by
    obtain ⟨hlen, _, _⟩ := hinv
    omega
  rw [hrep]
  exact ⟨appendFull_inv b op u _ uw mw hinv hu (by simp),
    appendFull_emitted b op u _ uw mw hinv hu (by simp)⟩

theorem append_row_matched_inv_emitted (b : StreamChunkBuilder) (op : Op) (m : Row) (uw mw : Nat)
    (hinv : BuilderInv b uw mw) (hm : m.length = mw) :
    BuilderInv (b.append_row_matched op m) uw mw ∧
      emittedRows (b.append_row_matched op m) =
        emittedRows b ++
          [(op, joinOutputRow b.update_start_pos (List.replicate uw (none : Datum)) m)] := by
  rw [append_row_matched_eq_appendFull]
  have hrep : b.column_builders.length - m.length = uw := by
    obtain ⟨hlen, _, _⟩ := hinv
    omega
  rw [hrep]
  exact ⟨appendFull_inv b op _ m uw mw hinv (by simp) hm,
    appendFull_emitted b op _ m uw mw hinv (by simp) hm⟩

theorem echo_loop_inv_emitted (ms : List Row) (b : StreamChunkBuilder) (op : Op) (row : Row)
    (uw mw : Nat) (hinv : BuilderInv b uw mw) (hrow : row.length = uw)
    (hms : ∀ m ∈ ms, m.length = mw) :
    BuilderInv (ms.foldl (fun acc m => acc.append_row op row m) b) uw mw ∧
      emittedRows (ms.foldl (fun acc m => acc.append_row op row m) b) =
        emittedRows b ++ ms.map (fun m => (op, joinOutputRow b.update_start_pos row m)) := by
  induction ms generalizing b with
  | nil => exact ⟨hinv, by simp⟩
  | cons m ms ih =>
    obtain ⟨hinv', hemit'⟩ :=
      append_row_inv_emitted b op row m uw mw hinv hrow (hms m (by simp))
    obtain ⟨hinv2, hemit2⟩ :=
      ih (b.append_row op row m) hinv' (fun x hx => hms x (by simp [hx]))
    refine ⟨hinv2, ?_⟩
    rw [List.foldl_cons, hemit2, hemit',
      show (b.append_row op row m).update_start_pos = b.update_start_pos from rfl]
    simp

theorem udui_insert_loop_inv_emitted (ms : List Row) (b : StreamChunkBuilder) (row : Row)
    (uw mw : Nat) (hinv : BuilderInv b uw mw) (hrow : row.length = uw)
    (hms : ∀ m ∈ ms, m.length = mw) :
    BuilderInv (ms.foldl (fun acc m =>
        (acc.append_row_matched Op.UpdateDelete m).append_row Op.UpdateInsert row m) b) uw mw ∧
      emittedRows (ms.foldl (fun acc m =>
          (acc.append_row_matched Op.UpdateDelete m).append_row Op.UpdateInsert row m) b) =
        emittedRows b ++ ms.flatMap (fun m =>
          [(Op.UpdateDelete,
            joinOutputRow b.update_start_pos (List.replicate uw (none : Datum)) m),
           (Op.UpdateInsert, joinOutputRow b.update_start_pos row m)]) := by
  induction ms generalizing b with
  | nil => exact ⟨hinv, by simp⟩
  | cons m ms ih =>
    obtain ⟨hinv1, hemit1⟩ :=
      append_row_matched_inv_emitted b Op.UpdateDelete m uw mw hinv (hms m (by simp))
    obtain ⟨hinv2, hemit2⟩ :=
      append_row_inv_emitted (b.append_row_matched Op.UpdateDelete m) Op.UpdateInsert row m
        uw mw hinv1 hrow (hms m (by simp))
    obtain ⟨hinv3, hemit3⟩ :=
      ih ((b.append_row_matched Op.UpdateDelete m).append_row Op.UpdateInsert row m) hinv2
        (fun x hx => hms x (by simp [hx]))
    refine ⟨hinv3, ?_⟩
    rw [List.foldl_cons, hemit3, hemit2, hemit1,
      show ((b.append_row_matched Op.UpdateDelete m).append_row Op.UpdateInsert
        row m).update_start_pos = b.update_start_pos from rfl,
      show (b.append_row_matched Op.UpdateDelete m).update_start_pos =
        b.update_start_pos from rfl]
    simp

theorem udui_delete_loop_inv_emitted (ms : List Row) (b : StreamChunkBuilder) (row : Row)
    (uw mw : Nat) (hinv : BuilderInv b uw mw) (hrow : row.length = uw)
    (hms : ∀ m ∈ ms, m.length = mw) :
    BuilderInv (ms.foldl (fun acc m =>
        (acc.append_row Op.UpdateDelete row m).append_row_matched Op.UpdateInsert m) b) uw mw ∧
      emittedRows (ms.foldl (fun acc m =>
          (acc.append_row Op.UpdateDelete row m).append_row_matched Op.UpdateInsert m) b) =
        emittedRows b ++ ms.flatMap (fun m =>
          [(Op.UpdateDelete, joinOutputRow b.update_start_pos row m),
           (Op.UpdateInsert,
            joinOutputRow b.update_start_pos (List.replicate uw (none : Datum)) m)]) := by
  induction ms generalizing b with
  | nil => exact ⟨hinv, by simp⟩
  | cons m ms ih =>
    obtain ⟨hinv1, hemit1⟩ :=
      append_row_inv_emitted b Op.UpdateDelete row m uw mw hinv hrow (hms m (by simp))
    obtain ⟨hinv2, hemit2⟩ :=
      append_row_matched_inv_emitted (b.append_row Op.UpdateDelete row m) Op.UpdateInsert m
        uw mw hinv1 (hms m (by simp))
    obtain ⟨hinv3, hemit3⟩ :=
      ih ((b.append_row Op.UpdateDelete row m).append_row_matched Op.UpdateInsert m) hinv2
        (fun x hx => hms x (by simp [hx]))
    refine ⟨hinv3, ?_⟩
    rw [List.foldl_cons, hemit3, hemit2, hemit1,
      show ((b.append_row Op.UpdateDelete row m).append_row_matched
        Op.UpdateInsert m).update_start_pos = b.update_start_pos from rfl,
      show (b.append_row Op.UpdateDelete row m).update_start_pos =
        b.update_start_pos from rfl]
    simp

theorem assocGet_mem {α : Type} (l : List (Row × α)) (k : Row) (v : α)
    (h : assocGet l k = some v) : (k, v) ∈ l := by
  induction l with
  | nil => exact absurd h (by simp [assocGet])
  | cons p rest ih =>
    by_cases hp : p.1 = k
    · rw [assocGet, if_pos hp] at h
      have hv : p.2 = v := Option.some.inj h
      have : (k, v) = p := by
        rw [← hp, ← hv]
      simp [this]
    · rw [assocGet, if_neg hp] at h
      simp [ih h]

theorem matched_values_width (matchHt : List (Row × JoinEntry)) (k : Row) (e : JoinEntry)
    (mw : Nat) (h : assocGet matchHt k = some e)
    (hmatch : ∀ p ∈ matchHt, ∀ q ∈ p.2.cache, q.2.length = mw) :
    ∀ m ∈ e.values, m.length = mw := by
  intro m hm
  obtain ⟨q, hq, hq2⟩ := List.mem_map.1 hm
  rw [← hq2]
  exact hmatch (k, e) (assocGet_mem matchHt k e h) q hq

theorem joinRowStep_inv (T SIDE : Nat) (key_indices pk_indices : List Nat)
    (matchHt updateHt : List (Row × JoinEntry)) (b : StreamChunkBuilder)
    (op : Op) (row : Row) (uw mw : Nat)
    (hinv : BuilderInv b uw mw) (hrow : row.length = uw)
    (hmatch : ∀ p ∈ matchHt, ∀ q ∈ p.2.cache, q.2.length = mw) :
    BuilderInv (joinRowStep T SIDE key_indices pk_indices matchHt (updateHt, b) (op, row)).2
      uw mw := by
  cases hmat : assocGet matchHt (projectRow row key_indices) with
  | none =>
    cases op <;>
      simp only [joinRowStep, hmat] <;>
      cases hk : outer_side_keep T SIDE <;>
      simp only [if_true, if_false, Bool.false_eq_true, ite_false, ite_true] <;>
      first
        | exact hinv
        | exact (append_row_update_inv_emitted b _ row uw mw hinv hrow).1
  | some e =>
    have hvals : ∀ m ∈ e.values, m.length = mw :=
      matched_values_width matchHt _ e mw hmat hmatch
    cases op with
    | Insert =>
      cases hocc : assocGet updateHt (projectRow row key_indices) with
      | some entry =>
        simp only [joinRowStep, hmat, hocc]
        cases hn : outer_side_null T SIDE <;>
          simp only [Bool.not_false, Bool.not_true, Bool.false_or, Bool.true_or,
            Bool.or_self, if_true, if_false, Bool.false_eq_true, ite_false, ite_true] <;>
          exact (echo_loop_inv_emitted e.values b Op.Insert row uw mw hinv hrow hvals).1
      | none =>
        simp only [joinRowStep, hmat, hocc]
        cases hn : outer_side_null T SIDE with
        | false =>
          simp only [Bool.not_false, Bool.true_or, Bool.false_eq_true, ite_false, ite_true,
            if_true]
          exact (echo_loop_inv_emitted e.values b Op.Insert row uw mw hinv hrow hvals).1
        | true =>
          simp only [Bool.not_true, Bool.false_or, ite_true, Bool.false_eq_true, ite_false]
          exact (udui_insert_loop_inv_emitted e.values b row uw mw hinv hrow hvals).1
    | UpdateInsert =>
      cases hocc : assocGet updateHt (projectRow row key_indices) with
      | some entry =>
        simp only [joinRowStep, hmat, hocc]
        cases hn : outer_side_null T SIDE <;>
          simp only [Bool.not_false, Bool.not_true, Bool.false_or, Bool.true_or,
            Bool.or_self, if_true, if_false, Bool.false_eq_true, ite_false, ite_true] <;>
          exact (echo_loop_inv_emitted e.values b Op.UpdateInsert row uw mw hinv hrow hvals).1
      | none =>
        simp only [joinRowStep, hmat, hocc]
        cases hn : outer_side_null T SIDE with
        | false =>
          simp only [Bool.not_false, Bool.true_or, Bool.false_eq_true, ite_false, ite_true,
            if_true]
          exact (echo_loop_inv_emitted e.values b Op.UpdateInsert row uw mw hinv hrow hvals).1
        | true =>
          simp only [Bool.not_true, Bool.false_or, ite_true, Bool.false_eq_true, ite_false]
          exact (udui_insert_loop_inv_emitted e.values b row uw mw hinv hrow hvals).1
    | Delete =>
      cases hocc : assocGet updateHt (projectRow row key_indices) with
      | some v =>
        simp only [joinRowStep, hmat, hocc]
        cases hr : outer_side_null T SIDE &&
            (v.remove (projectRow row pk_indices)).is_empty with
        | false =>
          simp only [hr, Bool.false_eq_true, ite_false, Bool.not_false, Bool.or_true,
            ite_true, if_true]
          exact (echo_loop_inv_emitted e.values b Op.Delete row uw mw hinv hrow hvals).1
        | true =>
          have hn : outer_side_null T SIDE = true := by
            have h2 := hr
            simp only [Bool.and_eq_true] at h2
            exact h2.1
          simp only [hr, hn, ite_true, Bool.not_true, Bool.or_self, Bool.false_eq_true,
            ite_false, Bool.false_or]
          exact (udui_delete_loop_inv_emitted e.values b row uw mw hinv hrow hvals).1
      | none =>
        simp only [joinRowStep, hmat, hocc]
        cases hn : outer_side_null T SIDE <;>
          simp only [Bool.not_false, Bool.not_true, Bool.false_or, Bool.true_or,
            Bool.or_self, if_true, if_false, Bool.false_eq_true, ite_false, ite_true] <;>
          exact (echo_loop_inv_emitted e.values b Op.Delete row uw mw hinv hrow hvals).1
    | UpdateDelete =>
      cases hocc : assocGet updateHt (projectRow row key_indices) with
      | some v =>
        simp only [joinRowStep, hmat, hocc]
        cases hr : outer_side_null T SIDE &&
            (v.remove (projectRow row pk_indices)).is_empty with
        | false =>
          simp only [hr, Bool.false_eq_true, ite_false, Bool.not_false, Bool.or_true,
            ite_true, if_true]
          exact (echo_loop_inv_emitted e.values b Op.UpdateDelete row uw mw hinv hrow hvals).1
        | true =>
          have hn : outer_side_null T SIDE = true := by
            have h2 := hr
            simp only [Bool.and_eq_true] at h2
            exact h2.1
          simp only [hr, hn, ite_true, Bool.not_true, Bool.or_self, Bool.false_eq_true,
            ite_false, Bool.false_or]
          exact (udui_delete_loop_inv_emitted e.values b row uw mw hinv hrow hvals).1
      | none =>
        simp only [joinRowStep, hmat, hocc]
        cases hn : outer_side_null T SIDE <;>
          simp only [Bool.not_false, Bool.not_true, Bool.false_or, Bool.true_or,
            Bool.or_self, if_true, if_false, Bool.false_eq_true, ite_false, ite_true] <;>
          exact (echo_loop_inv_emitted e.values b Op.UpdateDelete row uw mw hinv hrow hvals).1

theorem joinFold_inv (T SIDE : Nat) (key_indices pk_indices : List Nat)
    (matchHt : List (Row × JoinEntry)) (chunk : List (Op × Row))
    (updateHt : List (Row × JoinEntry)) (b : StreamChunkBuilder) (uw mw : Nat)
    (hinv : BuilderInv b uw mw) (hchunk : ∀ p ∈ chunk, p.2.length = uw)
    (hmatch : ∀ p ∈ matchHt, ∀ q ∈ p.2.cache, q.2.length = mw) :
    BuilderInv
      ((chunk.foldl (joinRowStep T SIDE key_indices pk_indices matchHt) (updateHt, b)).2)
      uw mw := by
  induction chunk generalizing updateHt b with
  | nil => exact hinv
  | cons p ps ih =>
    rw [List.foldl_cons]
    have hstep : BuilderInv
        (joinRowStep T SIDE key_indices pk_indices matchHt (updateHt, b) p).2 uw mw :=
      joinRowStep_inv T SIDE key_indices pk_indices matchHt updateHt b p.1 p.2 uw mw hinv
        (hchunk p (by simp)) hmatch
    exact ih (joinRowStep T SIDE key_indices pk_indices matchHt (updateHt, b) p).1
      (joinRowStep T SIDE key_indices pk_indices matchHt (updateHt, b) p).2 hstep
      (fun q hq => hchunk q (by simp [hq]))

/-- C6: for every join type in {Inner, LeftOuter, RightOuter, FullOuter} and
side in {Left, Right}, `outer_side_keep` is true exactly for FullOuter,
LeftOuter on the left side and RightOuter on the right side, and
`outer_side_null` equals `outer_side_keep` of the opposite side. -/
theorem c6_outer_predicates :
    ∀ T ∈ [JoinType.Inner, JoinType.LeftOuter, JoinType.RightOuter, JoinType.FullOuter],
      ∀ S ∈ [SideType.Left, SideType.Right],
        (outer_side_keep T S = true ↔
          (T = JoinType.FullOuter ∨ T = JoinType.LeftOuter ∧ S = SideType.Left ∨
            T = JoinType.RightOuter ∧ S = SideType.Right)) ∧
        outer_side_null T S = outer_side_keep T (oppositeSide S) := by
  decide

/-- Witness for C6 at T = FullOuter, S = Left. -/
theorem c6_outer_predicates_witness :
    (outer_side_keep JoinType.FullOuter SideType.Left = true ↔
      (JoinType.FullOuter = JoinType.FullOuter ∨
        JoinType.FullOuter = JoinType.LeftOuter ∧ SideType.Left = SideType.Left ∨
        JoinType.FullOuter = JoinType.RightOuter ∧ SideType.Left = SideType.Right)) ∧
    outer_side_null JoinType.FullOuter SideType.Left =
      outer_side_keep JoinType.FullOuter (oppositeSide SideType.Left) :=
  c6_outer_predicates JoinType.FullOuter (by decide) SideType.Left (by decide)

/-- C1: evaluating the schema computation of `HashJoinExecutor::new` at a
left schema with one field (tag 10) and a right schema with one field
(tag 20): the executor's schema fields come out right-then-left, not the
left-then-right order the claim (and the struct's own doc comment) states,
while the chunk column layout start positions are left-then-right
(left side 0, right side = number of left columns). -/
theorem c1_schema_order_bug :
    (hashJoinNew [10] [20]).schema_fields = [20, 10] ∧
    (hashJoinNew [10] [20]).schema_fields ≠ [10] ++ [20] ∧
    (hashJoinNew [10] [20]).new_column_datatypes = [20, 10] ∧
    (hashJoinNew [10] [20]).side_l_start_pos = 0 ∧
    (hashJoinNew [10] [20]).side_r_start_pos = 1 := by
  decide

/-- C2: evaluating `eq_join_oneside`'s per-row step on a LeftOuter join at a
left Insert row whose join key has a match-side entry that is present but
empty: `outer_side_keep` holds for the update side, yet the step emits
nothing (no ops are appended), where the claim requires exactly one
NULL-padded row. -/
theorem c2_empty_matched_entry_bug :
    outer_side_keep JoinType.LeftOuter SideType.Left = true ∧
    assocGet [([some 7], JoinEntry.empty)] [some 7] = some JoinEntry.empty ∧
    JoinEntry.empty.values = [] ∧
    (joinRowStep JoinType.LeftOuter SideType.Left [0] [0, 1]
        [([some 7], JoinEntry.empty)]
        ([], StreamChunkBuilder.new 4 0 2) (Op.Insert, [some 7, some 9])).2.ops = [] := by
  decide

/-- C5: evaluating `eq_join_oneside`'s per-row step on a FullOuter join at a
left Delete row whose (key, pk) pair is not present in the update side's
entry (the entry exists but is already empty), with a non-empty match-side
entry: the step emits an UpdateDelete/UpdateInsert retraction pair, where
the claim requires that no retraction be emitted. -/
theorem c5_spurious_retraction_bug :
    outer_side_null JoinType.FullOuter SideType.Left = true ∧
    assocGet (JoinEntry.empty.cache) [some 7, some 9] = none ∧
    (joinRowStep JoinType.FullOuter SideType.Left [0] [0, 1]
        [([some 7], ⟨[([some 7, some 1], [some 7, some 1])], [], []⟩)]
        ([([some 7], JoinEntry.empty)], StreamChunkBuilder.new 4 0 2)
        (Op.Delete, [some 7, some 9])).2.ops = [Op.UpdateDelete, Op.UpdateInsert] := by
  decide

/-- C7: receiving an aligned barrier flushes every state entry of both side
maps into one write batch per side (the two ingest effects, left then
right) and returns the barrier message; a left or right chunk message
produces no ingest effect and returns a chunk message. -/
theorem c7_barrier_flushes_chunks_do_not (T : Nat) (e : HashJoinExec) (ep : Nat)
    (c : List (Op × Row)) :
    (hashJoinNext T e (AlignedMessage.barrier ep)).2.1 =
      [e.side_l.ht.flatMap (fun p => (p.2.flush).1),
        e.side_r.ht.flatMap (fun p => (p.2.flush).1)] ∧
    (hashJoinNext T e (AlignedMessage.barrier ep)).2.2 = Message.barrier ep ∧
    (hashJoinNext T e (AlignedMessage.left c)).2.1 = [] ∧
    (hashJoinNext T e (AlignedMessage.right c)).2.1 = [] ∧
    (∃ ch, (hashJoinNext T e (AlignedMessage.left c)).2.2 = Message.chunk ch) ∧
    (∃ ch, (hashJoinNext T e (AlignedMessage.right c)).2.2 = Message.chunk ch) :=
  ⟨rfl, rfl, rfl, rfl, ⟨_, rfl⟩, ⟨_, rfl⟩⟩

/-- C9 counterexample: with a non-empty memtable and a failing ingest,
`flush` returns the error but the memtable has nevertheless been cleared
(it is drained while the batch is built), so the buffered mutations are not
left intact as the claim states. -/
theorem c9_flush_failure_counterexample :
    (mviewFlush (fun _ => []) (fun _ => []) ⟨1, [0], [([some 1], none)]⟩ 7 false).1 =
      Except.error () ∧
    (mviewFlush (fun _ => []) (fun _ => [])
        ⟨1, [0], [([some 1], none)]⟩ 7 false).2.1.memtable = [] ∧
    ([([some 1], (none : Option Row))] : List (Row × Option Row)) ≠ [] := by
  refine ⟨rfl, rfl, by decide⟩

/-- C9 (amended): `flush(epoch)` ingests the batch under the given epoch and
propagates the ingest outcome, but clears the memtable unconditionally: the
memtable is drained while the batch is built, so after a failed ingest the
buffered mutations are lost, not preserved. -/
theorem c9_flush_drains_unconditionally (spk : Row → List Nat) (scell : Datum → List Nat)
    (st : ManagedMViewState) (epoch : Nat) (ok : Bool) :
    (mviewFlush spk scell st epoch ok).2.1.memtable = [] ∧
    (mviewFlush spk scell st epoch ok).2.2 = (mviewFlushOps spk scell st, epoch) ∧
    ((mviewFlush spk scell st epoch ok).1 = Except.ok () ↔ ok = true) := by
  refine ⟨rfl, rfl, ?_⟩
  cases ok <;> simp [mviewFlush]

theorem flatMap_const_length {α β : Type} (l : List α) (f : α → List β) (k : Nat)
    (h : ∀ x, (f x).length = k) : (l.flatMap f).length = l.length * k := by
  induction l with
  | nil => simp
  | cons x xs ih =>
    simp only [List.flatMap_cons, List.length_append, List.length_cons, ih, h x,
      Nat.succ_mul]
    omega

/-- C8: one flush of the mview writer issues exactly
`len(memtable) * schema.len()` key-value operations, and for each memtable
entry `(pk, cells)` and each column index `i` the operation on key
`serialize_pk(pk) ++ serialize_cell_idx(i)` is a put of the serialized cell
when `cells` is an upsert and a delete when it is a tombstone. -/
theorem c8_mview_flush_ops (spk : Row → List Nat) (scell : Datum → List Nat)
    (st : ManagedMViewState) :
    (mviewFlushOps spk scell st).length = st.memtable.length * st.schema_len ∧
    ∀ pk cells, (pk, cells) ∈ st.memtable → ∀ i, i < st.schema_len →
      (match cells with
        | some row => KVOp.put (spk pk ++ serialize_cell_idx i) (scell (row.getD i none))
        | none => KVOp.del (spk pk ++ serialize_cell_idx i)) ∈
        mviewFlushOps spk scell st := by
  constructor
  · exact flatMap_const_length st.memtable _ st.schema_len (fun x => by simp)
  · intro pk cells hmem i hi
    apply List.mem_flatMap.2
    refine ⟨(pk, cells), hmem, ?_⟩
    apply List.mem_map.2
    refine ⟨i, List.mem_range.2 hi, ?_⟩
    cases cells <;> rfl

/-- Witness for C8 at a one-entry memtable with a two-column schema. -/
theorem c8_mview_flush_ops_witness :
    (mviewFlushOps (fun _ => [0]) (fun _ => [1])
        ⟨2, [0], [([some 5], some [some 1, some 2])]⟩).length = 1 * 2 ∧
    KVOp.put ([0] ++ serialize_cell_idx 0) [1] ∈
      mviewFlushOps (fun _ => [0]) (fun _ => [1])
        ⟨2, [0], [([some 5], some [some 1, some 2])]⟩ :=
  ⟨(c8_mview_flush_ops (fun _ => [0]) (fun _ => [1])
      ⟨2, [0], [([some 5], some [some 1, some 2])]⟩).1,
   (c8_mview_flush_ops (fun _ => [0]) (fun _ => [1])
      ⟨2, [0], [([some 5], some [some 1, some 2])]⟩).2
     [some 5] (some [some 1, some 2]) (by simp) 0 (by decide)⟩

/-- C3: for an Insert or UpdateInsert row `r` on side U whose join key has
no entry in U's table, whose match-side entry is present and non-empty, and
with `outer_side_null(T,U)` holding, the step emits, for each matched row
`m`, (UpdateDelete, NULL-padded | m) immediately followed by
(UpdateInsert, r | m), and emits nothing else for that row (the ordinary
join echo is suppressed). -/
theorem c3_first_insert_retracts_nulls (T SIDE : Nat) (key_indices pk_indices : List Nat)
    (matchHt updateHt : List (Row × JoinEntry)) (op : Op) (row : Row)
    (b : StreamChunkBuilder) (e : JoinEntry) (uw mw : Nat)
    (hop : op = Op.Insert ∨ op = Op.UpdateInsert)
    (hvac : assocGet updateHt (projectRow row key_indices) = none)
    (hmat : assocGet matchHt (projectRow row key_indices) = some e)
    (hne : e.values ≠ [])
    (hnull : outer_side_null T SIDE = true)
    (hinv : BuilderInv b uw mw) (hrow : row.length = uw)
    (hms : ∀ m ∈ e.values, m.length = mw) :
    emittedRows
        (joinRowStep T SIDE key_indices pk_indices matchHt (updateHt, b) (op, row)).2 =
      emittedRows b ++ e.values.flatMap (fun m =>
        [(Op.UpdateDelete,
          joinOutputRow b.update_start_pos (List.replicate uw (none : Datum)) m),
         (Op.UpdateInsert, joinOutputRow b.update_start_pos row m)]) := by
  rcases hop with h | h
  all_goals subst h
  all_goals
    simp only [joinRowStep, hmat, hvac, hnull, Bool.not_true, Bool.false_or, ite_true,
      Bool.false_eq_true, ite_false]
  all_goals
    exact (udui_insert_loop_inv_emitted e.values b row uw mw hinv hrow hms).2

/-- Witness for C3: LeftOuter join, right side drives, first right row for
key 2 arrives while the left side holds one matching row. -/
theorem c3_first_insert_retracts_nulls_witness :
    (outer_side_null JoinType.LeftOuter SideType.Right = true ∧
      BuilderInv (StreamChunkBuilder.new 4 2 0) 2 2) ∧
    emittedRows
        (joinRowStep JoinType.LeftOuter SideType.Right [0] [0, 1]
          [([some 2], ⟨[([some 2, some 5], [some 2, some 5])], [], []⟩)]
          ([], StreamChunkBuilder.new 4 2 0) (Op.Insert, [some 2, some 7])).2 =
      emittedRows (StreamChunkBuilder.new 4 2 0) ++
        (JoinEntry.values ⟨[([some 2, some 5], [some 2, some 5])], [], []⟩).flatMap
          (fun m =>
            [(Op.UpdateDelete,
              joinOutputRow (StreamChunkBuilder.new 4 2 0).update_start_pos
                (List.replicate 2 (none : Datum)) m),
             (Op.UpdateInsert,
              joinOutputRow (StreamChunkBuilder.new 4 2 0).update_start_pos
                [some 2, some 7] m)]) :=
  ⟨⟨by decide, by unfold BuilderInv; decide⟩,
   c3_first_insert_retracts_nulls JoinType.LeftOuter SideType.Right [0] [0, 1]
     [([some 2], ⟨[([some 2, some 5], [some 2, some 5])], [], []⟩)] []
     Op.Insert [some 2, some 7] (StreamChunkBuilder.new 4 2 0)
     ⟨[([some 2, some 5], [some 2, some 5])], [], []⟩ 2 2
     (Or.inl rfl) rfl (by decide) (by decide) (by decide)
     (by unfold BuilderInv; decide) (by decide) (by decide)⟩

/-- C4: for a Delete or UpdateDelete row `r` on side U whose removal empties
U's entry for the join key (the entry was non-empty and becomes empty),
with `outer_side_null(T,U)` holding and a present non-empty match-side
entry, the step emits, for each matched row `m`, (UpdateDelete, r | m) then
(UpdateInsert, NULL-padded | m), and the ordinary join echo is
suppressed. -/
theorem c4_emptying_delete_reinstates_nulls (T SIDE : Nat)
    (key_indices pk_indices : List Nat)
    (matchHt updateHt : List (Row × JoinEntry)) (op : Op) (row : Row)
    (b : StreamChunkBuilder) (e v : JoinEntry) (uw mw : Nat)
    (hop : op = Op.Delete ∨ op = Op.UpdateDelete)
    (hocc : assocGet updateHt (projectRow row key_indices) = some v)
    (hpre : v.is_empty = false)
    (hpost : (v.remove (projectRow row pk_indices)).is_empty = true)
    (hmat : assocGet matchHt (projectRow row key_indices) = some e)
    (hne : e.values ≠ [])
    (hnull : outer_side_null T SIDE = true)
    (hinv : BuilderInv b uw mw) (hrow : row.length = uw)
    (hms : ∀ m ∈ e.values, m.length = mw) :
    emittedRows
        (joinRowStep T SIDE key_indices pk_indices matchHt (updateHt, b) (op, row)).2 =
      emittedRows b ++ e.values.flatMap (fun m =>
        [(Op.UpdateDelete, joinOutputRow b.update_start_pos row m),
         (Op.UpdateInsert,
          joinOutputRow b.update_start_pos (List.replicate uw (none : Datum)) m)]) := by
  rcases hop with h | h
  all_goals subst h
  all_goals
    simp only [joinRowStep, hmat, hocc, hnull, hpost, Bool.and_self, ite_true,
      Bool.not_true, Bool.or_self, Bool.false_eq_true, ite_false, Bool.false_or]
  all_goals
    exact (udui_delete_loop_inv_emitted e.values b row uw mw hinv hrow hms).2

/-- Witness for C4: FullOuter join, left side drives, the last left row for
key 3 is deleted while the right side holds one matching row. -/
theorem c4_emptying_delete_reinstates_nulls_witness :
    (outer_side_null JoinType.FullOuter SideType.Left = true ∧
      JoinEntry.is_empty ⟨[([some 3, some 6], [some 3, some 6])], [], []⟩ = false) ∧
    emittedRows
        (joinRowStep JoinType.FullOuter SideType.Left [0] [0, 1]
          [([some 3], ⟨[([some 3, some 10], [some 3, some 10])], [], []⟩)]
          ([([some 3], ⟨[([some 3, some 6], [some 3, some 6])], [], []⟩)],
            StreamChunkBuilder.new 4 0 2)
          (Op.Delete, [some 3, some 6])).2 =
      emittedRows (StreamChunkBuilder.new 4 0 2) ++
        (JoinEntry.values ⟨[([some 3, some 10], [some 3, some 10])], [], []⟩).flatMap
          (fun m =>
            [(Op.UpdateDelete,
              joinOutputRow (StreamChunkBuilder.new 4 0 2).update_start_pos
                [some 3, some 6] m),
             (Op.UpdateInsert,
              joinOutputRow (StreamChunkBuilder.new 4 0 2).update_start_pos
                (List.replicate 2 (none : Datum)) m)]) :=
  ⟨⟨by decide, by decide⟩,
   c4_emptying_delete_reinstates_nulls JoinType.FullOuter SideType.Left [0] [0, 1]
     [([some 3], ⟨[([some 3, some 10], [some 3, some 10])], [], []⟩)]
     [([some 3], ⟨[([some 3, some 6], [some 3, some 6])], [], []⟩)]
     Op.Delete [some 3, some 6] (StreamChunkBuilder.new 4 0 2)
     ⟨[([some 3, some 10], [some 3, some 10])], [], []⟩
     ⟨[([some 3, some 6], [some 3, some 6])], [], []⟩ 2 2
     (Or.inl rfl) (by decide) (by decide) (by decide) (by decide) (by decide) (by decide)
     (by unfold BuilderInv; decide) (by decide) (by decide)⟩

/-- C10: every chunk emitted by `eq_join_oneside` carries no visibility
bitmap, and its ops vector length equals the row count of every one of its
columns, for inputs whose rows have the update side's width and whose
match-side state rows have the match side's width, under the executor's
column layout (left columns first). -/
theorem c10_output_chunk_wellformed (T SIDE : Nat) (side_update side_match : JoinSide)
    (chunk : List (Op × Row)) (uw mw : Nat)
    (hlay : side_update.start_pos = 0 ∧ side_match.start_pos = uw ∨
      side_update.start_pos = mw ∧ side_match.start_pos = 0)
    (hchunk : ∀ p ∈ chunk, p.2.length = uw)
    (hmatch : ∀ p ∈ side_match.ht, ∀ q ∈ p.2.cache, q.2.length = mw) :
    (eq_join_oneside T SIDE side_update side_match (uw + mw) chunk).2.visibility = none ∧
    ∀ c ∈ (eq_join_oneside T SIDE side_update side_match (uw + mw) chunk).2.columns,
      c.length = (eq_join_oneside T SIDE side_update side_match (uw + mw) chunk).2.ops.length := by
  have hinv0 : BuilderInv
      (StreamChunkBuilder.new (uw + mw) side_update.start_pos side_match.start_pos) uw mw := by
    refine ⟨by simp [StreamChunkBuilder.new], ?_, hlay⟩
    intro c hc
    have hc0 : c = [] := List.eq_of_mem_replicate hc
    simp [hc0, StreamChunkBuilder.new]
  have hfold := joinFold_inv T SIDE side_update.key_indices side_update.pk_indices
    side_match.ht chunk side_update.ht
    (StreamChunkBuilder.new (uw + mw) side_update.start_pos side_match.start_pos) uw mw
    hinv0 hchunk hmatch
  exact ⟨rfl, fun c hc => hfold.2.1 c hc⟩

/-- Witness for C10: an Inner join with two two-column sides and a
single-row input chunk. -/
theorem c10_output_chunk_wellformed_witness :
    ((⟨[], [0], [0, 1], 2, 0⟩ : JoinSide).start_pos = 0 ∧
        (⟨[], [0], [0, 1], 2, 2⟩ : JoinSide).start_pos = 2 ∨
      (⟨[], [0], [0, 1], 2, 0⟩ : JoinSide).start_pos = 2 ∧
        (⟨[], [0], [0, 1], 2, 2⟩ : JoinSide).start_pos = 0) ∧
    (eq_join_oneside JoinType.Inner SideType.Left (⟨[], [0], [0, 1], 2, 0⟩ : JoinSide)
        (⟨[], [0], [0, 1], 2, 2⟩ : JoinSide) (2 + 2)
        [(Op.Insert, [some 1, some 4])]).2.visibility = none ∧
    ∀ c ∈ (eq_join_oneside JoinType.Inner SideType.Left (⟨[], [0], [0, 1], 2, 0⟩ : JoinSide)
        (⟨[], [0], [0, 1], 2, 2⟩ : JoinSide) (2 + 2)
        [(Op.Insert, [some 1, some 4])]).2.columns,
      c.length = (eq_join_oneside JoinType.Inner SideType.Left
        (⟨[], [0], [0, 1], 2, 0⟩ : JoinSide) (⟨[], [0], [0, 1], 2, 2⟩ : JoinSide) (2 + 2)
        [(Op.Insert, [some 1, some 4])]).2.ops.length :=
  ⟨by decide,
   c10_output_chunk_wellformed JoinType.Inner SideType.Left
     (⟨[], [0], [0, 1], 2, 0⟩ : JoinSide) (⟨[], [0], [0, 1], 2, 2⟩ : JoinSide)
     [(Op.Insert, [some 1, some 4])] 2 2 (by decide) (by decide) (by decide)⟩
